import Mathlib

set_option maxHeartbeats 1000000

set_option maxRecDepth 100000

/-!
Shallow embedding of `deploy.py` (Khan/slacker-cow).

Python byte strings are modelled as `List Char`.  The script is Python 2, so
`str.strip` / regex `\s` whitespace is the byte-string class
space, tab, newline, carriage return, vertical tab, form feed, and `int()`
parses an optional surrounding run of that whitespace, an optional single
sign, and a nonempty run of ASCII digits.
-/

/-! ## Definitions -/

/-- Python whitespace for byte strings (`str.strip`, regex class). -/
def isPyWs (c : Char) : Bool :=
  c == ' ' || c == '\t' || c == '\n' || c == '\r' || c == '\x0b' || c == '\x0c'

/-- ASCII digit test (regex class of digits, `int()` digits). -/
def isDigitC (c : Char) : Bool := '0' ≤ c && c ≤ '9'

/-- Numeric value of an ASCII digit character. -/
def digitVal (c : Char) : Nat := c.toNat - '0'.toNat

/-- Value of a digit string, most significant digit first. -/
def digitsVal (ds : List Char) : Nat := ds.foldl (fun a c => 10 * a + digitVal c) 0

/-- Decimal digits of a natural number (fuelled so that it is structural;
`natToDigits` always supplies enough fuel). Models Python `str` of a
non-negative `int`. -/
def natToDigitsAux : Nat → Nat → List Char
  | 0, _ => []
  | fuel + 1, n =>
    if n < 10 then [Nat.digitChar n]
    else natToDigitsAux fuel (n / 10) ++ [Nat.digitChar (n % 10)]

/-- Decimal representation of a natural number, e.g. `natToDigits 42 = "42"`. -/
def natToDigits (n : Nat) : List Char := natToDigitsAux (n + 1) n

/-- Decimal representation of an integer: Python `'%s' % n` for an `int`. -/
def intRepr (n : Int) : List Char :=
  if n < 0 then '-' :: natToDigits n.natAbs else natToDigits n.toNat

/-- Python `s.strip()`: remove leading and trailing whitespace. -/
def pyStrip (s : List Char) : List Char :=
  ((s.dropWhile isPyWs).reverse.dropWhile isPyWs).reverse

/-- Sign-and-digits part of Python 2 `int(s)`, applied after stripping. -/
def pyIntCore : List Char → Option Int
  | [] => none
  | c :: ds =>
    if c == '+' then
      if !ds.isEmpty && ds.all isDigitC then some (digitsVal ds) else none
    else if c == '-' then
      if !ds.isEmpty && ds.all isDigitC then some (-(digitsVal ds : Int)) else none
    else
      if (c :: ds).all isDigitC then some (digitsVal (c :: ds)) else none

/-- Python 2 `int(s)`: optional surrounding whitespace, optional sign,
nonempty digit run; `none` models the `ValueError`. -/
def pyInt (s : List Char) : Option Int := pyIntCore (pyStrip s)

/-- Python `s.split(sep)` for a one-character separator: splits at every
occurrence, `"".split(sep) = [""]`. -/
def splitAll (sep : Char) : List Char → List (List Char)
  | [] => [[]]
  | c :: rest =>
    if c == sep then [] :: splitAll sep rest
    else
      match splitAll sep rest with
      | [] => [[c]]
      | p :: ps => (c :: p) :: ps

/-- Python `s.rsplit(sep, 1)` for a one-character separator: at most one
split, taken from the right. -/
def pyRsplit1 (sep : Char) (s : List Char) : List (List Char) :=
  match s.reverse.dropWhile (fun c => !(c == sep)) with
  | [] => [s]
  | _ :: rest => [rest.reverse, (s.reverse.takeWhile (fun c => !(c == sep))).reverse]

/-- `deploy.get_version`: `s.rsplit('-', 1)[0]`. -/
def get_version (s : List Char) : List Char := (pyRsplit1 '-' s).headD []

/-- `deploy.increment_version`:
`prefix, version = current_version.split('-')` (fails unless exactly two
pieces), then `'%s-v%s' % (prefix, int(version[1:]) + 1)`; `none` models the
uncaught `ValueError`. -/
def increment_version (current_version : List Char) : Option (List Char) :=
  match splitAll '-' current_version with
  | [pre, ver] =>
    match pyInt (ver.drop 1) with
    | some n => some (pre ++ '-' :: 'v' :: intRepr (n + 1))
    | none => none
  | _ => none

/-- String to replace with the new version stamp. -/
def VERSION_REPLACEMENT : List Char := ("XXX-REPLACE-WITH-NEW-VERSION-XXX").data

/-- String to replace with the Slack API token. -/
def SLACK_REPLACEMENT : List Char := ("XXX-REPLACE-WITH-SLACK-TOKEN-XXX").data

/-- String to replace with the Jenkins API token. -/
def JENKINS_API_REPLACEMENT : List Char := ("XXX-REPLACE-WITH-JENKINS-API-TOKEN-XXX").data

/-- Python `s.replace(old, new)` as a left-to-right scan with a skip counter:
`skip = k + 1` means `k + 1` characters of a just-matched occurrence remain to
be consumed.  The counter keeps the recursion structural. -/
def replaceAllAux (old new : List Char) : Nat → List Char → List Char
  | _, [] => []
  | k + 1, _ :: rest => replaceAllAux old new k rest
  | 0, c :: rest =>
    if old ≠ [] ∧ old.isPrefixOf (c :: rest) then
      new ++ replaceAllAux old new (old.length - 1) rest
    else c :: replaceAllAux old new 0 rest

/-- Python `s.replace(old, new)`: replace every non-overlapping occurrence of
`old`, scanning left to right. -/
def replaceAll (old new s : List Char) : List Char := replaceAllAux old new 0 s

/-- Number of non-overlapping occurrences (Python `s.count(old)`), counted by
the same left-to-right scan that `replaceAll` performs. -/
def countOccAux (old : List Char) : Nat → List Char → Nat
  | _, [] => 0
  | k + 1, _ :: rest => countOccAux old k rest
  | 0, c :: rest =>
    if old ≠ [] ∧ old.isPrefixOf (c :: rest) then
      1 + countOccAux old (old.length - 1) rest
    else countOccAux old 0 rest

/-- Number of non-overlapping occurrences of `old` in `s`. -/
def countOcc (old s : List Char) : Nat := countOccAux old 0 s

/-- The substitution step of `deploy`: three successive `replace` calls,
version stamp first, then Slack token, then Jenkins API token. -/
def substitute (template new slack_token jenkins_api_token : List Char) : List Char :=
  replaceAll JENKINS_API_REPLACEMENT jenkins_api_token
    (replaceAll SLACK_REPLACEMENT slack_token
      (replaceAll VERSION_REPLACEMENT new template))

/-- Literal head of the pod-id pattern. -/
def POD_LIT : List Char := ("frontend-v").data

/-- Attempt to match the regex at the front of the string.  For the pattern
`frontend-v\d+-[^\s]+` a match at a position is: the literal, then the maximal
nonempty digit run, then a hyphen, then the maximal nonempty non-whitespace
run (the greedy quantifiers cannot backtrack for this pattern: shortening
the digit run leaves a digit where the hyphen is required, and nothing
follows the final run). -/
def matchPodTail (ds : List Char) : List Char → Option (List Char)
  | [] => none
  | c2 :: tail =>
    if c2 = '-' then
      if ds = [] ∨ tail.takeWhile (fun c => !(isPyWs c)) = [] then none
      else some (POD_LIT ++ ds ++ '-' :: tail.takeWhile (fun c => !(isPyWs c)))
    else none

def matchPodAt (s : List Char) : Option (List Char) :=
  if POD_LIT.isPrefixOf s then
    matchPodTail ((s.drop POD_LIT.length).takeWhile isDigitC)
      ((s.drop POD_LIT.length).dropWhile isDigitC)
  else none

/-- `re.search` for `POD_ID_MATCH`: try each start position left to right and
return the first match. -/
def reSearch : List Char → Option (List Char)
  | [] => none
  | c :: rest =>
    match matchPodAt (c :: rest) with
    | some m => some m
    | none => reSearch rest

/-- Declarative reading of the pattern `frontend-v\d+-[^\s]+`: a literal head,
a nonempty digit run, a hyphen, a nonempty non-whitespace run. -/
def IsPodId (m : List Char) : Prop :=
  ∃ ds suf, m = POD_LIT ++ ds ++ '-' :: suf ∧ ds ≠ [] ∧
    (∀ c ∈ ds, isDigitC c = true) ∧ suf ≠ [] ∧ (∀ c ∈ suf, isPyWs c = false)

/-- Some pattern match starts at the front of `t`. -/
def StartsWithPod (t : List Char) : Prop := ∃ m, m <+: t ∧ IsPodId m

/-- The external commands the script invokes. -/
inductive Cmd
  | dockerBuild
  | gcloudPush
  | kubectlGetPods
  | kubectlRollingUpdate (current : List Char)
  deriving DecidableEq

/-- Observable actions of a run. -/
inductive Event
  | runCmd (c : Cmd)
  | readTemplate
  | createTempFile (contents : List Char)
  | unlinkTempFile
  | printStderr (msg : List Char)
  deriving DecidableEq

/-- How a run terminates abnormally: `exit(n)`, a `CalledProcessError` from
`run_command`, the `AttributeError` from `.group(0)` on a failed regex search,
or the `ValueError` from unpacking/`int()` in `increment_version`. -/
inductive RunError
  | exitCode (n : Nat)
  | calledProcessError (c : Cmd)
  | attrError
  | valueError
  deriving DecidableEq

/-- Oracle for everything outside the script: which external commands succeed,
what `kubectl get pods` prints, which secret files exist and their contents,
and the template file's bytes. -/
structure World where
  dockerBuildOk : Bool
  gcloudPushOk : Bool
  kubectlPodsOk : Bool
  podsOutput : List Char
  slackTokenExists : Bool
  slackTokenContents : List Char
  jenkinsTokenExists : Bool
  jenkinsTokenContents : List Char
  template : List Char
  rollingUpdateOk : Bool

/-- Path to file containing the Slack API token to use. -/
def SLACK_TOKEN_FILE : List Char := (".slack_token").data

/-- Path to file containing the Jenkins API token to use. -/
def JENKINS_API_TOKEN_FILE : List Char := (".jenkins_api_token").data

/-- `deploy.rebuild_image`: `docker build` then `gcloud docker push`, each via
`run_command`, which raises on a non-zero exit. -/
def rebuild_image (w : World) : List Event × Except RunError Unit :=
  if w.dockerBuildOk then
    if w.gcloudPushOk then
      ([.runCmd .dockerBuild, .runCmd .gcloudPush], .ok ())
    else
      ([.runCmd .dockerBuild, .runCmd .gcloudPush],
        .error (.calledProcessError .gcloudPush))
  else
    ([.runCmd .dockerBuild], .error (.calledProcessError .dockerBuild))

/-- `deploy.get_pod_id`: `kubectl get pods`, then
`POD_ID_MATCH.search(pods).group(0)`; a failed search raises
(`AttributeError` on `None`). -/
def get_pod_id (w : World) : List Event × Except RunError (List Char) :=
  if w.kubectlPodsOk then
    ([.runCmd .kubectlGetPods],
      match reSearch w.podsOutput with
      | some m => .ok m
      | none => .error .attrError)
  else
    ([.runCmd .kubectlGetPods], .error (.calledProcessError .kubectlGetPods))

/-- The message `get_secret` prints on a missing file. -/
def secretMsg (filename passphrase_id : List Char) : List Char :=
  ("Please create a “").data ++ filename ++ ("” file with secret ").data
    ++ passphrase_id ++ (" in it.").data

/-- `deploy.get_secret`: if the file does not exist, print an instruction to
stderr and `exit(1)`; otherwise return the file contents stripped. -/
def get_secret (fileExists : Bool) (contents filename passphrase_id : List Char) :
    List Event × Except RunError (List Char) :=
  if fileExists then
    ([], .ok (pyStrip contents))
  else
    ([.printStderr (secretMsg filename passphrase_id)], .error (.exitCode 1))

/-- `deploy.deploy`: read the template, substitute the three placeholders,
write a temp file, run `kubectl rolling-update` inside `try`, and in the
`finally` block unlink the temp file when `delete_desc_file` is set — so the
unlink happens whether or not the rolling update succeeded, and a failure
still propagates afterwards. -/
def deploy (w : World) (current new slack_token jenkins_api_token : List Char)
    (delete_desc_file : Bool) : List Event × Except RunError Unit :=
  ([.readTemplate,
    .createTempFile (substitute w.template new slack_token jenkins_api_token),
    .runCmd (.kubectlRollingUpdate current)]
      ++ (if delete_desc_file then [.unlinkTempFile] else []),
    if w.rollingUpdateOk then .ok ()
    else .error (.calledProcessError (.kubectlRollingUpdate current)))

/-- `deploy.main`: the five pipeline steps in order, stopping at the first
uncaught failure. -/
def mainProg (w : World) : List Event × Except RunError Unit :=
  match rebuild_image w with
  | (e1, .error err) => (e1, .error err)
  | (e1, .ok _) =>
    match get_pod_id w with
    | (e2, .error err) => (e1 ++ e2, .error err)
    | (e2, .ok pod_id) =>
      match increment_version (get_version pod_id) with
      | none => (e1 ++ e2, .error .valueError)
      | some new_version =>
        match get_secret w.slackTokenExists w.slackTokenContents
            SLACK_TOKEN_FILE (("K88").data) with
        | (e3, .error err) => (e1 ++ e2 ++ e3, .error err)
        | (e3, .ok slack_token) =>
          match get_secret w.jenkinsTokenExists w.jenkinsTokenContents
              JENKINS_API_TOKEN_FILE (("K92").data) with
          | (e4, .error err) => (e1 ++ e2 ++ e3 ++ e4, .error err)
          | (e4, .ok jenkins_token) =>
            match deploy w (get_version pod_id) new_version slack_token
                jenkins_token true with
            | (e5, r) => (e1 ++ e2 ++ e3 ++ e4 ++ e5, r)

/-- Events the claim C6 says must not happen when a secret file is missing. -/
def isDeployAction : Event → Bool
  | .readTemplate => true
  | .createTempFile _ => true
  | .runCmd (.kubectlRollingUpdate _) => true
  | _ => false

/-- A world whose rolling update fails, for the C4 witness. -/
def deployFailWorld : World :=
  { dockerBuildOk := true, gcloudPushOk := true, kubectlPodsOk := true,
    podsOutput := [], slackTokenExists := true, slackTokenContents := [],
    jenkinsTokenExists := true, jenkinsTokenContents := [],
    template := ("x").data, rollingUpdateOk := false }

/-- A world with a missing Slack token file and all earlier steps succeeding,
for the C6 witness. -/
def missingSecretWorld : World :=
  { dockerBuildOk := true, gcloudPushOk := true, kubectlPodsOk := true,
    podsOutput := ("pod frontend-v3-abcde  Running").data,
    slackTokenExists := false, slackTokenContents := [],
    jenkinsTokenExists := true, jenkinsTokenContents := (" tok ").data,
    template := ("x").data, rollingUpdateOk := true }

/-- A world whose pod listing contains a pod id, for the C8 witness. -/
def podListingWorld : World :=
  { dockerBuildOk := true, gcloudPushOk := true, kubectlPodsOk := true,
    podsOutput := ("pod frontend-v3-abcde  Running").data,
    slackTokenExists := true, slackTokenContents := [],
    jenkinsTokenExists := true, jenkinsTokenContents := [],
    template := [], rollingUpdateOk := true }

/-! ## Theorems -/

theorem dropWhile_eq_of_all_false {p : Char → Bool} {s : List Char}
    (h : ∀ c ∈ s, p c = false) : s.dropWhile p = s := by
  cases s with
  | nil => rfl
  | cons c t => simp [List.dropWhile_cons, h c (by simp)]

theorem dropWhile_append_of_all_true {p : Char → Bool} (l₁ l₂ : List Char)
    (h : ∀ c ∈ l₁, p c = true) : (l₁ ++ l₂).dropWhile p = l₂.dropWhile p := by
  induction l₁ with
  | nil => rfl
  | cons c t ih =>
    simp only [List.cons_append, List.dropWhile_cons, h c (by simp), if_true]
    exact ih (fun d hd => h d (by simp [hd]))

theorem takeWhile_eq_of_all_true {p : Char → Bool} {s : List Char}
    (h : ∀ c ∈ s, p c = true) : s.takeWhile p = s := by
  induction s with
  | nil => rfl
  | cons c t ih =>
    simp only [List.takeWhile_cons, h c (by simp), if_true]
    rw [ih (fun d hd => h d (by simp [hd]))]

theorem takeWhile_append_of_false {p : Char → Bool} (l₁ l₂ : List Char) (x : Char)
    (h : ∀ c ∈ l₁, p c = true) (hx : p x = false) :
    (l₁ ++ x :: l₂).takeWhile p = l₁ := by
  induction l₁ with
  | nil => simp [List.takeWhile_cons, hx]
  | cons c t ih =>
    simp only [List.cons_append, List.takeWhile_cons, h c (by simp), if_true]
    rw [ih (fun d hd => h d (by simp [hd]))]

theorem digitsVal_append_singleton (xs : List Char) (d : Char) :
    digitsVal (xs ++ [d]) = 10 * digitsVal xs + digitVal d := by
  simp [digitsVal, List.foldl_append]

theorem digitVal_digitChar {n : Nat} (h : n < 10) : digitVal (Nat.digitChar n) = n := by
  interval_cases n <;> decide

theorem isDigitC_digitChar {n : Nat} (h : n < 10) : isDigitC (Nat.digitChar n) = true := by
  interval_cases n <;> decide

theorem natToDigitsAux_spec : ∀ fuel n, n < fuel →
    digitsVal (natToDigitsAux fuel n) = n ∧ natToDigitsAux fuel n ≠ [] ∧
      ∀ c ∈ natToDigitsAux fuel n, isDigitC c = true
  | 0, _, h => absurd h (by omega)
  | fuel + 1, n, h => by
    unfold natToDigitsAux
    by_cases h10 : n < 10
    · simp only [if_pos h10]
      refine ⟨?_, by simp, ?_⟩
      · simp only [digitsVal, List.foldl_cons, List.foldl_nil]
        rw [digitVal_digitChar h10]
        omega
      · intro c hc
        simp only [List.mem_singleton] at hc
        subst hc
        exact isDigitC_digitChar h10
    · simp only [if_neg h10]
      have hlt : n / 10 < fuel := by omega
      obtain ⟨ih1, ih2, ih3⟩ := natToDigitsAux_spec fuel (n / 10) hlt
      refine ⟨?_, by simp, ?_⟩
      · rw [digitsVal_append_singleton, ih1, digitVal_digitChar (by omega)]
        omega
      · intro c hc
        rcases List.mem_append.mp hc with hc | hc
        · exact ih3 c hc
        · simp only [List.mem_singleton] at hc
          subst hc
          exact isDigitC_digitChar (by omega)

theorem digitsVal_natToDigits (n : Nat) : digitsVal (natToDigits n) = n :=
  (natToDigitsAux_spec (n + 1) n (by omega)).1

theorem natToDigits_ne_nil (n : Nat) : natToDigits n ≠ [] :=
  (natToDigitsAux_spec (n + 1) n (by omega)).2.1

theorem natToDigits_digits (n : Nat) : ∀ c ∈ natToDigits n, isDigitC c = true :=
  (natToDigitsAux_spec (n + 1) n (by omega)).2.2

theorem intRepr_natCast (n : Nat) : intRepr (n : Int) = natToDigits n := by
  unfold intRepr
  rw [if_neg (by omega), Int.toNat_natCast]

theorem digit_not_beq_plus {c : Char} (h : isDigitC c = true) : (c == '+') = false := by
  cases hb : (c == '+') with
  | false => rfl
  | true =>
    have := eq_of_beq hb
    subst this
    exact absurd h (by decide)

theorem digit_not_beq_hyphen {c : Char} (h : isDigitC c = true) : (c == '-') = false := by
  cases hb : (c == '-') with
  | false => rfl
  | true =>
    have := eq_of_beq hb
    subst this
    exact absurd h (by decide)

theorem digit_not_ws {c : Char} (h : isDigitC c = true) : isPyWs c = false := by
  cases hb : isPyWs c with
  | false => rfl
  | true =>
    have h0 : ('0' ≤ c && c ≤ '9') = true := h
    simp only [Bool.and_eq_true, decide_eq_true_eq] at h0
    have hw : (c == ' ' || c == '\t' || c == '\n' || c == '\r' || c == '\x0b' || c == '\x0c') = true := hb
    simp only [Bool.or_eq_true, beq_iff_eq] at hw
    rcases hw with ((((hw | hw) | hw) | hw) | hw) | hw <;> subst hw <;> revert h0 <;> decide

theorem digit_ne_hyphen {c : Char} (h : isDigitC c = true) : c ≠ '-' := by
  intro he
  subst he
  exact absurd h (by decide)

theorem pyStrip_no_ws {s : List Char} (h : ∀ c ∈ s, isPyWs c = false) : pyStrip s = s := by
  unfold pyStrip
  rw [dropWhile_eq_of_all_false h,
      dropWhile_eq_of_all_false (fun c hc => h c (List.mem_reverse.mp hc)),
      List.reverse_reverse]

theorem pyInt_digits {ds : List Char} (hne : ds ≠ []) (h : ∀ c ∈ ds, isDigitC c = true) :
    pyInt ds = some ((digitsVal ds : Int)) := by
  have hstrip : pyStrip ds = ds := pyStrip_no_ws (fun c hc => digit_not_ws (h c hc))
  unfold pyInt
  rw [hstrip]
  cases ds with
  | nil => exact absurd rfl hne
  | cons c t =>
    have hc := h c (by simp)
    simp only [pyIntCore, digit_not_beq_plus hc, digit_not_beq_hyphen hc,
      Bool.false_eq_true, if_false]
    rw [if_pos (List.all_eq_true.mpr h)]

theorem splitAll_ne_nil (sep : Char) : ∀ s : List Char, splitAll sep s ≠ []
  | [] => by simp [splitAll]
  | c :: rest => by
    by_cases h : (c == sep) = true
    · simp [splitAll, h]
    · simp only [splitAll, h, Bool.false_eq_true, if_false]
      cases hs : splitAll sep rest <;> simp

theorem length_splitAll (sep : Char) : ∀ s : List Char,
    (splitAll sep s).length = s.count sep + 1
  | [] => by simp [splitAll]
  | c :: rest => by
    have ih := length_splitAll sep rest
    rw [List.count_cons]
    by_cases h : (c == sep) = true
    · rw [if_pos h]
      simp only [splitAll, h, if_true, List.length_cons, ih]
      try omega
    · rw [if_neg h]
      simp only [splitAll, h, Bool.false_eq_true, if_false]
      cases hs : splitAll sep rest with
      | nil => exact absurd hs (splitAll_ne_nil sep rest)
      | cons p ps =>
        rw [hs] at ih
        simp only [List.length_cons] at ih ⊢
        omega

theorem splitAll_no_sep (sep : Char) : ∀ s : List Char, sep ∉ s → splitAll sep s = [s]
  | [], _ => rfl
  | c :: rest, h => by
    have hc : (c == sep) = false := by
      cases hb : (c == sep) with
      | false => rfl
      | true => exact absurd (by simp [eq_of_beq hb]) h
    have ih := splitAll_no_sep sep rest (fun hm => h (by simp [hm]))
    simp only [splitAll, hc, Bool.false_eq_true, if_false, ih]

theorem splitAll_append_sep (sep : Char) : ∀ (a b : List Char), sep ∉ a →
    splitAll sep (a ++ sep :: b) = a :: splitAll sep b
  | [], b, _ => by
    simp [splitAll]
  | x :: a, b, h => by
    have hx : (x == sep) = false := by
      cases hb : (x == sep) with
      | false => rfl
      | true => exact absurd (by simp [eq_of_beq hb]) h
    have ih := splitAll_append_sep sep a b (fun hm => h (by simp [hm]))
    simp only [List.cons_append, splitAll, hx, Bool.false_eq_true, if_false,
      List.append_eq, ih]

theorem splitAll_two (a b : List Char) (ha : '-' ∉ a) (hb : '-' ∉ b) :
    splitAll '-' (a ++ '-' :: b) = [a, b] := by
  rw [splitAll_append_sep '-' a b ha, splitAll_no_sep '-' b hb]

theorem increment_version_eq (pre : List Char) (c : Char) (ds : List Char)
    (hpre : '-' ∉ pre) (hc : c ≠ '-') (hne : ds ≠ [])
    (hds : ∀ d ∈ ds, isDigitC d = true) :
    increment_version (pre ++ '-' :: c :: ds)
      = some (pre ++ '-' :: 'v' :: natToDigits (digitsVal ds + 1)) := by
  have hnotin : '-' ∉ c :: ds := by
    intro hmem
    rcases List.mem_cons.mp hmem with hmem | hmem
    · exact hc hmem.symm
    · exact digit_ne_hyphen (hds _ hmem) rfl
  have hsplit : splitAll '-' (pre ++ '-' :: c :: ds) = [pre, c :: ds] :=
    splitAll_two pre (c :: ds) hpre hnotin
  have hdrop : (c :: ds).drop 1 = ds := rfl
  have hcast : ((digitsVal ds : Int) + 1) = ((digitsVal ds + 1 : Nat) : Int) := by
    push_cast
    ring
  simp only [increment_version, hsplit, hdrop, pyInt_digits hne hds, hcast, intRepr_natCast]

theorem get_version_append_hyphen (a suf : List Char) (h : '-' ∉ suf) :
    get_version (a ++ '-' :: suf) = a := by
  unfold get_version pyRsplit1
  have hrev : (a ++ '-' :: suf).reverse = suf.reverse ++ '-' :: a.reverse := by
    simp
  have hall : ∀ c ∈ suf.reverse, (!(c == '-')) = true := by
    intro c hc
    have : c ≠ '-' := fun he => h (he ▸ List.mem_reverse.mp hc)
    simp [this]
  rw [hrev, dropWhile_append_of_all_true _ _ hall]
  simp [List.dropWhile_cons]

/-- Claim C1: for every version string of the form `<prefix>-v<N>` (one hyphen,
`N` a non-negative integer written in decimal), `increment_version` returns
`<prefix>-v<N+1>`. -/
theorem claim_C1_increment_version (pre : List Char) (N : Nat) (hpre : '-' ∉ pre) :
    increment_version (pre ++ '-' :: 'v' :: natToDigits N)
      = some (pre ++ '-' :: 'v' :: natToDigits (N + 1)) := by
  rw [increment_version_eq pre 'v' (natToDigits N) hpre (by decide)
      (natToDigits_ne_nil N) (natToDigits_digits N), digitsVal_natToDigits]

/-- Witness for C1 at prefix `frontend`, N = 3. -/
theorem claim_C1_witness :
    '-' ∉ ("frontend").data ∧
      increment_version (("frontend").data ++ '-' :: 'v' :: natToDigits 3)
        = some (("frontend").data ++ '-' :: 'v' :: natToDigits 4) :=
  ⟨by decide, claim_C1_increment_version ("frontend").data 3 (by decide)⟩

/-- Claim C2, counterexample: `"a-b"` is a non-whitespace token, yet on
`"frontend-v3-a-b"` the function `get_version` (which splits at the LAST
hyphen) returns `"frontend-v3-a"`, not `"frontend-v3"` as the claim states. -/
theorem claim_C2_counterexample :
    (("a-b").data ≠ [] ∧ ∀ c ∈ ("a-b").data, isPyWs c = false) ∧
      get_version (("frontend-v").data ++ natToDigits 3 ++ '-' :: ("a-b").data)
        ≠ ("frontend-v").data ++ natToDigits 3 := by decide

/-- Claim C2 as amended: for every string `frontend-v<N>-<suffix>` where the
suffix contains no hyphen, `get_version` returns `frontend-v<N>`. -/
theorem claim_C2_amended_get_version (N : Nat) (suf : List Char) (h : '-' ∉ suf) :
    get_version (("frontend-v").data ++ natToDigits N ++ '-' :: suf)
      = ("frontend-v").data ++ natToDigits N := by
  have := get_version_append_hyphen (("frontend-v").data ++ natToDigits N) suf h
  simpa [List.append_assoc] using this

/-- Witness for amended C2 at N = 3, suffix `abcde`. -/
theorem claim_C2_witness :
    '-' ∉ ("abcde").data ∧
      get_version (("frontend-v").data ++ natToDigits 3 ++ '-' :: ("abcde").data)
        = ("frontend-v").data ++ natToDigits 3 :=
  ⟨by decide, claim_C2_amended_get_version 3 ("abcde").data (by decide)⟩

/-- Claim C7: `increment_version` fails (the model returns `none`, the script
raises an uncaught `ValueError`) exactly when the input does not contain
exactly one hyphen, or when the two-way split succeeds but the characters
after the leading one of the second piece are not a valid integer for
Python `int()`; on all other inputs it returns normally. -/
theorem claim_C7_increment_version_failure (cv : List Char) :
    increment_version cv = none ↔
      (cv.count '-' ≠ 1 ∨
        ∃ pre ver, splitAll '-' cv = [pre, ver] ∧ pyInt (ver.drop 1) = none) := by
  rcases hs : splitAll '-' cv with _ | ⟨p, _ | ⟨v, _ | ⟨w, rest⟩⟩⟩
  · exact absurd hs (splitAll_ne_nil '-' cv)
  · have hcount : cv.count '-' + 1 = 1 := by
      rw [← length_splitAll '-' cv, hs]
      rfl
    constructor
    · intro _
      left
      omega
    · intro _
      simp [increment_version, hs]
  · have hcount : cv.count '-' + 1 = 2 := by
      rw [← length_splitAll '-' cv, hs]
      rfl
    simp only [increment_version, hs]
    constructor
    · intro hnone
      right
      refine ⟨p, v, rfl, ?_⟩
      rcases hp : pyInt (v.drop 1) with _ | n
      · rfl
      · rw [hp] at hnone
        simp at hnone
    · rintro (hcnt | ⟨p', v', heq, hnone⟩)
      · omega
      · injection heq with h1 h2
        injection h2 with h2 _
        subst h1
        subst h2
        rw [hnone]
  · have hcount : cv.count '-' + 1 = rest.length + 3 := by
      rw [← length_splitAll '-' cv, hs]
      simp
      try omega
    constructor
    · intro _
      left
      omega
    · intro _
      simp [increment_version, hs]

/-- Claim C9: `increment_version` never checks that the version segment begins
with a `v`: for any input `<prefix>-<c><digits>` with exactly one hyphen,
where `c` is an arbitrary non-hyphen character and the digit run is nonempty,
it succeeds and returns `<prefix>-v<N+1>` for `N` the value of the digits,
silently discarding `c`. -/
theorem claim_C9_increment_version_ignores_v (pre : List Char) (c : Char)
    (ds : List Char) (hpre : '-' ∉ pre) (hc : c ≠ '-') (hne : ds ≠ [])
    (hds : ∀ d ∈ ds, isDigitC d = true) :
    increment_version (pre ++ '-' :: c :: ds)
      = some (pre ++ '-' :: 'v' :: natToDigits (digitsVal ds + 1)) :=
  increment_version_eq pre c ds hpre hc hne hds

/-- Witness for C9: `frontend-x7` becomes `frontend-v8`, discarding the `x`. -/
theorem claim_C9_witness :
    '-' ∉ ("frontend").data ∧ 'x' ≠ '-' ∧ ("7").data ≠ [] ∧
      (∀ d ∈ ("7").data, isDigitC d = true) ∧
      increment_version (("frontend").data ++ '-' :: 'x' :: ("7").data)
        = some (("frontend").data ++ '-' :: 'v' :: natToDigits (digitsVal ("7").data + 1)) :=
  ⟨by decide, by decide, by decide, by decide,
    claim_C9_increment_version_ignores_v ("frontend").data 'x' ("7").data
      (by decide) (by decide) (by decide) (by decide)⟩

/-- Claim C10: on a string containing no hyphen, `get_version` returns the
string unchanged (`rsplit` on a missing separator yields the whole string). -/
theorem claim_C10_get_version_no_hyphen (s : List Char) (h : '-' ∉ s) :
    get_version s = s := by
  unfold get_version pyRsplit1
  have : s.reverse.dropWhile (fun c => !(c == '-')) = [] := by
    rw [List.dropWhile_eq_nil_iff]
    intro x hx
    have : x ≠ '-' := fun he => h (he ▸ List.mem_reverse.mp hx)
    simp [this]
  rw [this]
  rfl

/-- Witness for C10 on the hyphen-free string `nohyphen`. -/
theorem claim_C10_witness :
    '-' ∉ ("nohyphen").data ∧ get_version (("nohyphen").data) = ("nohyphen").data :=
  ⟨by decide, claim_C10_get_version_no_hyphen ("nohyphen").data (by decide)⟩

theorem replaceAllAux_skip (old new : List Char) : ∀ (s : List Char) (k : Nat),
    replaceAllAux old new k s = replaceAllAux old new 0 (s.drop k)
  | [], k => by cases k <;> rfl
  | _ :: rest, 0 => rfl
  | _ :: rest, k + 1 => by
    show replaceAllAux old new k rest = _
    rw [replaceAllAux_skip old new rest k]
    rfl

/-- The step equation of `replaceAll`, in the shape of Python's scan. -/
theorem replaceAll_cons (old new : List Char) (c : Char) (rest : List Char) :
    replaceAll old new (c :: rest)
      = if old ≠ [] ∧ old.isPrefixOf (c :: rest) then
          new ++ replaceAll old new ((c :: rest).drop old.length)
        else c :: replaceAll old new rest := by
  show replaceAllAux old new 0 (c :: rest) = _
  unfold replaceAllAux
  by_cases h : old ≠ [] ∧ old.isPrefixOf (c :: rest)
  · rw [if_pos h, if_pos h, replaceAllAux_skip]
    have hlen : 1 ≤ old.length := List.length_pos.mpr h.1
    have : (c :: rest).drop old.length = rest.drop (old.length - 1) := by
      cases hl : old.length with
      | zero => omega
      | succ m => simp
    rw [this]
    rfl
  · rw [if_neg h, if_neg h]
    rfl

theorem replaceAll_no_occ (old new : List Char) (hold : old ≠ []) :
    ∀ s : List Char, ¬ old <:+: s → replaceAll old new s = s
  | [], _ => rfl
  | c :: rest, h => by
    rw [replaceAll_cons]
    have hpre : ¬ (old ≠ [] ∧ old.isPrefixOf (c :: rest)) := by
      rintro ⟨-, hp⟩
      exact h (List.isPrefixOf_iff_prefix.mp hp).isInfix
    rw [if_neg hpre,
        replaceAll_no_occ old new hold rest
          (fun hi => h (List.infix_cons_iff.mpr (Or.inr hi)))]

/-- If `old` occurs as a prefix of `a ++ old ++ b` with `a` nonempty, that
occurrence lies inside the first `|a| + |old| - 1` characters. -/
theorem middle_occ_bound (old a b : List Char) (hold : old ≠ []) (hane : a ≠ [])
    (h : old <+: a ++ old ++ b) : old <:+: a ++ old.dropLast := by
  have hsplit : a ++ old ++ b = (a ++ old.dropLast) ++ (old.getLast hold :: b) := by
    conv_lhs => rw [← List.dropLast_append_getLast hold]
    simp [List.append_assoc]
  have h2 : (a ++ old.dropLast) <+: a ++ old ++ b := by
    rw [hsplit]
    exact List.prefix_append _ _
  have hlen : old.length ≤ (a ++ old.dropLast).length := by
    have ha1 : 1 ≤ a.length := List.length_pos.mpr hane
    have ho1 : 1 ≤ old.length := List.length_pos.mpr hold
    simp only [List.length_append, List.length_dropLast]
    omega
  exact (List.prefix_of_prefix_length_le h h2 hlen).isInfix

/-- Replacing a uniquely-placed occurrence: if `old` does not occur before
position `|a|` and does not occur in `b`, then replacing in `a ++ old ++ b`
substitutes exactly that occurrence. -/
theorem replaceAll_unique (old new : List Char) (hold : old ≠ []) :
    ∀ a b : List Char, ¬ old <:+: a ++ old.dropLast → ¬ old <:+: b →
      replaceAll old new (a ++ old ++ b) = a ++ new ++ b
  | [], b, _, hb => by
    simp only [List.nil_append]
    cases hold2 : old with
    | nil => exact absurd hold2 hold
    | cons o ot =>
      rw [← hold2, show old ++ b = (o :: ot) ++ b from by rw [hold2],
          List.cons_append, replaceAll_cons, ← List.cons_append, ← hold2,
          if_pos ⟨hold, List.isPrefixOf_iff_prefix.mpr (List.prefix_append old b)⟩,
          List.drop_left, replaceAll_no_occ old new hold b hb]
  | x :: a, b, ha, hb => by
    have hcond : ¬ (old ≠ [] ∧ old.isPrefixOf (x :: a ++ old ++ b)) := by
      rintro ⟨-, hp⟩
      have hpre : old <+: (x :: a) ++ old ++ b := by
        simpa using List.isPrefixOf_iff_prefix.mp hp
      exact ha (middle_occ_bound old (x :: a) b hold (by simp) hpre)
    have ha' : ¬ old <:+: a ++ old.dropLast := by
      intro hi
      exact ha (hi.trans (List.IsSuffix.isInfix ⟨[x], rfl⟩))
    have ih := replaceAll_unique old new hold a b ha' hb
    calc replaceAll old new ((x :: a) ++ old ++ b)
        = replaceAll old new (x :: (a ++ old ++ b)) := by simp [List.append_assoc]
      _ = x :: replaceAll old new (a ++ old ++ b) := by
          rw [replaceAll_cons]
          rw [if_neg (by simpa [List.append_assoc] using hcond)]
      _ = (x :: a) ++ new ++ b := by rw [ih]; simp [List.append_assoc]

/-- Claim C3, counterexample: the template made of exactly the three
placeholders in sequence contains each of them exactly once, yet supplying the
Slack placeholder string itself as the version value makes the first
replacement create a second Slack placeholder occurrence, which the second
replacement then also rewrites, so the output is not the placeholder-by-value
substitution the claim describes (each placeholder replaced by its value and
every other byte unchanged). -/
theorem claim_C3_counterexample :
    (countOcc VERSION_REPLACEMENT
        (VERSION_REPLACEMENT ++ SLACK_REPLACEMENT ++ JENKINS_API_REPLACEMENT) = 1 ∧
      countOcc SLACK_REPLACEMENT
        (VERSION_REPLACEMENT ++ SLACK_REPLACEMENT ++ JENKINS_API_REPLACEMENT) = 1 ∧
      countOcc JENKINS_API_REPLACEMENT
        (VERSION_REPLACEMENT ++ SLACK_REPLACEMENT ++ JENKINS_API_REPLACEMENT) = 1) ∧
    substitute (VERSION_REPLACEMENT ++ SLACK_REPLACEMENT ++ JENKINS_API_REPLACEMENT)
        SLACK_REPLACEMENT (("a").data) (("b").data)
      ≠ SLACK_REPLACEMENT ++ ("a").data ++ ("b").data := by decide

/-- Claim C3 as amended: if the template decomposes as
`A · version-placeholder · B · slack-placeholder · C · jenkins-placeholder · D`,
each placeholder occurring exactly once (no occurrence starting earlier, none
later), and the substituted values do not create new placeholder occurrences
(no Slack placeholder occurs up to its position after the version value is in
place, and no Jenkins placeholder after the first two values are in place),
then the substitution step replaces each placeholder by its value and leaves
every other byte of the template unchanged. -/
theorem claim_C3_amended_substitute (A B C D v1 v2 v3 : List Char)
    (h1a : ¬ VERSION_REPLACEMENT <:+: A ++ VERSION_REPLACEMENT.dropLast)
    (h1b : ¬ VERSION_REPLACEMENT <:+:
        B ++ SLACK_REPLACEMENT ++ C ++ JENKINS_API_REPLACEMENT ++ D)
    (h2a : ¬ SLACK_REPLACEMENT <:+: (A ++ v1 ++ B) ++ SLACK_REPLACEMENT.dropLast)
    (h2b : ¬ SLACK_REPLACEMENT <:+: C ++ JENKINS_API_REPLACEMENT ++ D)
    (h3a : ¬ JENKINS_API_REPLACEMENT <:+:
        (A ++ v1 ++ B ++ v2 ++ C) ++ JENKINS_API_REPLACEMENT.dropLast)
    (h3b : ¬ JENKINS_API_REPLACEMENT <:+: D) :
    substitute
        (A ++ VERSION_REPLACEMENT ++ B ++ SLACK_REPLACEMENT ++ C
          ++ JENKINS_API_REPLACEMENT ++ D) v1 v2 v3
      = A ++ v1 ++ B ++ v2 ++ C ++ v3 ++ D := by
  unfold substitute
  rw [show A ++ VERSION_REPLACEMENT ++ B ++ SLACK_REPLACEMENT ++ C
        ++ JENKINS_API_REPLACEMENT ++ D
      = A ++ VERSION_REPLACEMENT
        ++ (B ++ SLACK_REPLACEMENT ++ C ++ JENKINS_API_REPLACEMENT ++ D)
      from by simp [List.append_assoc]]
  rw [replaceAll_unique VERSION_REPLACEMENT v1 (by decide) A _ h1a h1b]
  rw [show A ++ v1 ++ (B ++ SLACK_REPLACEMENT ++ C ++ JENKINS_API_REPLACEMENT ++ D)
      = (A ++ v1 ++ B) ++ SLACK_REPLACEMENT ++ (C ++ JENKINS_API_REPLACEMENT ++ D)
      from by simp [List.append_assoc]]
  rw [replaceAll_unique SLACK_REPLACEMENT v2 (by decide) (A ++ v1 ++ B) _ h2a h2b]
  rw [show (A ++ v1 ++ B) ++ v2 ++ (C ++ JENKINS_API_REPLACEMENT ++ D)
      = (A ++ v1 ++ B ++ v2 ++ C) ++ JENKINS_API_REPLACEMENT ++ D
      from by simp [List.append_assoc]]
  rw [replaceAll_unique JENKINS_API_REPLACEMENT v3 (by decide)
      (A ++ v1 ++ B ++ v2 ++ C) D h3a h3b]
  try simp [List.append_assoc]

/-- Witness for amended C3 on a small concrete template `{P1,P2,P3}` with
values `frontend-v4`, `tok`, `jtk`. -/
theorem claim_C3_witness :
    (¬ VERSION_REPLACEMENT <:+: ("\x7b").data ++ VERSION_REPLACEMENT.dropLast) ∧
    (¬ VERSION_REPLACEMENT <:+:
        (",").data ++ SLACK_REPLACEMENT ++ (",").data ++ JENKINS_API_REPLACEMENT ++ ("\x7d").data) ∧
    (¬ SLACK_REPLACEMENT <:+:
        (("\x7b").data ++ ("frontend-v4").data ++ (",").data) ++ SLACK_REPLACEMENT.dropLast) ∧
    (¬ SLACK_REPLACEMENT <:+: (",").data ++ JENKINS_API_REPLACEMENT ++ ("\x7d").data) ∧
    (¬ JENKINS_API_REPLACEMENT <:+:
        (("\x7b").data ++ ("frontend-v4").data ++ (",").data ++ ("tok").data ++ (",").data)
          ++ JENKINS_API_REPLACEMENT.dropLast) ∧
    (¬ JENKINS_API_REPLACEMENT <:+: ("\x7d").data) ∧
    substitute
        (("\x7b").data ++ VERSION_REPLACEMENT ++ (",").data ++ SLACK_REPLACEMENT ++ (",").data
          ++ JENKINS_API_REPLACEMENT ++ ("\x7d").data)
        ("frontend-v4").data ("tok").data ("jtk").data
      = ("\x7b").data ++ ("frontend-v4").data ++ (",").data ++ ("tok").data ++ (",").data
          ++ ("jtk").data ++ ("\x7d").data :=
  ⟨by decide, by decide, by decide, by decide, by decide, by decide,
    claim_C3_amended_substitute ("\x7b").data (",").data (",").data ("\x7d").data
      ("frontend-v4").data ("tok").data ("jtk").data
      (by decide) (by decide) (by decide) (by decide) (by decide) (by decide)⟩

theorem dropWhile_head_false {p : Char → Bool} :
    ∀ {l : List Char} {c : Char} {t : List Char}, l.dropWhile p = c :: t → p c = false
  | [], c, t, h => by simp at h
  | x :: xs, c, t, h => by
    rw [List.dropWhile_cons] at h
    by_cases hx : p x = true
    · rw [if_pos hx] at h
      exact dropWhile_head_false h
    · rw [if_neg hx] at h
      injection h with h1 _
      subst h1
      exact Bool.not_eq_true _ |>.mp hx

/-- A successful `matchPodAt` yields a pattern match that is a prefix of the
input, with the remainder empty or beginning in whitespace (greedy extent). -/
theorem matchPodAt_some {s m : List Char} (h : matchPodAt s = some m) :
    IsPodId m ∧ ∃ b, s = m ++ b ∧ (b = [] ∨ ∃ c t, b = c :: t ∧ isPyWs c = true) := by
  unfold matchPodAt at h
  by_cases hpre : POD_LIT.isPrefixOf s
  · rw [if_pos hpre] at h
    obtain ⟨t, rfl⟩ := List.isPrefixOf_iff_prefix.mp hpre
    rw [List.drop_left] at h
    rcases hdw : t.dropWhile isDigitC with _ | ⟨c2, tail⟩ <;> rw [hdw] at h
    · simp [matchPodTail] at h
    · simp only [matchPodTail] at h
      by_cases hc2 : c2 = '-'
      · rw [if_pos hc2] at h
        subst hc2
        by_cases hemp : t.takeWhile isDigitC = [] ∨
            tail.takeWhile (fun c => !(isPyWs c)) = []
        · rw [if_pos hemp] at h
          simp at h
        · rw [if_neg hemp] at h
          push_neg at hemp
          obtain ⟨hds, hsuf⟩ := hemp
          injection h with h
          subst h
          constructor
          · exact ⟨t.takeWhile isDigitC, tail.takeWhile (fun c => !(isPyWs c)), rfl,
              hds, fun c hc => List.mem_takeWhile_imp hc, hsuf,
              fun c hc => by simpa using List.mem_takeWhile_imp hc⟩
          · refine ⟨tail.dropWhile (fun c => !(isPyWs c)), ?_, ?_⟩
            · have ht : t = t.takeWhile isDigitC ++ '-' :: tail := by
                conv_lhs => rw [← List.takeWhile_append_dropWhile isDigitC t]
                rw [hdw]
              have htail : tail = tail.takeWhile (fun c => !(isPyWs c))
                  ++ tail.dropWhile (fun c => !(isPyWs c)) :=
                (List.takeWhile_append_dropWhile _ tail).symm
              calc POD_LIT ++ t
                  = POD_LIT ++ (t.takeWhile isDigitC ++ '-' :: tail) := by rw [← ht]
                _ = _ := by rw [htail]; simp [List.append_assoc]
            · rcases hb : tail.dropWhile (fun c => !(isPyWs c)) with _ | ⟨cb, tb⟩
              · exact Or.inl rfl
              · refine Or.inr ⟨cb, tb, rfl, ?_⟩
                have := dropWhile_head_false hb
                simpa using this
      · rw [if_neg hc2] at h
        simp at h
  · rw [if_neg hpre] at h
    simp at h

/-- If some pattern match starts at the front of `s`, `matchPodAt` succeeds. -/
theorem matchPodAt_of_startsWith {s : List Char} (h : StartsWithPod s) :
    ∃ m, matchPodAt s = some m := by
  obtain ⟨m, ⟨b, hb⟩, ds, suf, hm, hds, hdig, hsuf, hws⟩ := h
  subst hm
  subst hb
  have hshape : (POD_LIT ++ ds ++ '-' :: suf) ++ b
      = POD_LIT ++ (ds ++ '-' :: (suf ++ b)) := by
    simp [List.append_assoc]
  rw [hshape]
  have hpre : POD_LIT.isPrefixOf (POD_LIT ++ (ds ++ '-' :: (suf ++ b))) =
      true := List.isPrefixOf_iff_prefix.mpr (List.prefix_append _ _)
  unfold matchPodAt
  rw [if_pos hpre, List.drop_left]
  have hhyp : isDigitC '-' = false := by decide
  have htw : (ds ++ '-' :: (suf ++ b)).takeWhile isDigitC = ds :=
    takeWhile_append_of_false ds (suf ++ b) '-' hdig hhyp
  have hdw : (ds ++ '-' :: (suf ++ b)).dropWhile isDigitC = '-' :: (suf ++ b) := by
    rw [dropWhile_append_of_all_true _ _ hdig, List.dropWhile_cons,
      if_neg (by decide : ¬(isDigitC '-' = true))]
  rw [htw, hdw]
  simp only [matchPodTail, if_pos rfl]
  have hsuf2 : (suf ++ b).takeWhile (fun c => !(isPyWs c)) ≠ [] := by
    cases hsufc : suf with
    | nil => exact absurd hsufc hsuf
    | cons c0 t0 =>
      subst hsufc
      rw [List.cons_append, List.takeWhile_cons, if_pos (by simp [hws c0 (by simp)])]
      simp
  have hcond : ¬(ds = [] ∨ (suf ++ b).takeWhile (fun c => !(isPyWs c)) = []) := by
    push_neg
    exact ⟨hds, hsuf2⟩
  rw [if_neg hcond]
  exact ⟨_, rfl⟩

/-- `matchPodAt` fails exactly when no pattern match starts at the front. -/
theorem matchPodAt_none_iff {s : List Char} :
    matchPodAt s = none ↔ ¬ StartsWithPod s := by
  constructor
  · intro hs hsw
    obtain ⟨m, hm⟩ := matchPodAt_of_startsWith hsw
    rw [hs] at hm
    exact Option.noConfusion hm
  · intro hsw
    rcases hm : matchPodAt s with _ | m
    · rfl
    · obtain ⟨hpod, b, hb, -⟩ := matchPodAt_some hm
      exact absurd ⟨m, ⟨b, hb.symm⟩, hpod⟩ hsw

/-- `reSearch` fails exactly when no substring of the input matches. -/
theorem reSearch_none_iff : ∀ s : List Char,
    reSearch s = none ↔ ¬ ∃ m, m <:+: s ∧ IsPodId m
  | [] => by
    simp only [reSearch, true_iff]
    rintro ⟨m, hm, ds, suf, hshape, -⟩
    have hnil : m = [] := by
      have h2 := hm.sublist
      simpa using h2
    subst hshape
    simp [POD_LIT] at hnil
  | c :: rest => by
    have ih := reSearch_none_iff rest
    constructor
    · intro h
      rcases hm : matchPodAt (c :: rest) with _ | m
      · rintro ⟨m, hm2, hpod⟩
        rcases List.infix_cons_iff.mp hm2 with hp | hi
        · exact matchPodAt_none_iff.mp hm ⟨m, hp, hpod⟩
        · unfold reSearch at h
          rw [hm] at h
          exact ih.mp h ⟨m, hi, hpod⟩
      · unfold reSearch at h
        rw [hm] at h
        exact Option.noConfusion h
    · intro h
      unfold reSearch
      rcases hm : matchPodAt (c :: rest) with _ | m
      · rw [ih.mpr (fun hex => h (by
          obtain ⟨m, hi, hpod⟩ := hex
          exact ⟨m, List.infix_cons_iff.mpr (Or.inr hi), hpod⟩))]
      · obtain ⟨hpod, b, hb, -⟩ := matchPodAt_some hm
        exact absurd ⟨m, List.infix_cons_iff.mpr
          (Or.inl ⟨b, hb.symm⟩) , hpod⟩ h

/-- A successful `reSearch` returns a pattern match occurring in the string,
with greedy extent, and no match starting at any earlier position. -/
theorem reSearch_some : ∀ {s m : List Char}, reSearch s = some m →
    IsPodId m ∧ ∃ a b, s = a ++ m ++ b ∧
      (b = [] ∨ ∃ c t, b = c :: t ∧ isPyWs c = true) ∧
      ∀ i, i < a.length → ¬ StartsWithPod (s.drop i)
  | [], m, h => by simp [reSearch] at h
  | c :: rest, m, h => by
    unfold reSearch at h
    rcases hm : matchPodAt (c :: rest) with _ | m' <;> rw [hm] at h
    · obtain ⟨hpod, a, b, hab, hext, hleft⟩ := reSearch_some h
      refine ⟨hpod, c :: a, b, by rw [hab]; simp, hext, ?_⟩
      intro i hi
      cases i with
      | zero =>
        intro hsw
        rw [List.drop_zero] at hsw
        exact matchPodAt_none_iff.mp hm hsw
      | succ j =>
        have hd : (c :: rest).drop (j + 1) = rest.drop j := rfl
        rw [hd]
        refine hleft j ?_
        simp only [List.length_cons] at hi
        omega
    · injection h with h
      subst h
      obtain ⟨hpod, b, hb, hext⟩ := matchPodAt_some hm
      exact ⟨hpod, [], b, by simpa using hb, hext, fun i hi => absurd hi (by simp)⟩

/-- Both-ends strip decomposition: the stripped string sits inside the
original between two all-whitespace stretches. -/
theorem pyStrip_decomp (s : List Char) :
    ∃ a b, s = a ++ pyStrip s ++ b ∧ (∀ c ∈ a, isPyWs c = true) ∧
      (∀ c ∈ b, isPyWs c = true) := by
  refine ⟨s.takeWhile isPyWs,
    ((s.dropWhile isPyWs).reverse.takeWhile isPyWs).reverse, ?_, ?_, ?_⟩
  · have hdw : s.dropWhile isPyWs
        = pyStrip s ++ ((s.dropWhile isPyWs).reverse.takeWhile isPyWs).reverse := by
      unfold pyStrip
      conv_lhs => rw [← List.reverse_reverse (s.dropWhile isPyWs)]
      conv_lhs =>
        rw [← List.takeWhile_append_dropWhile isPyWs (s.dropWhile isPyWs).reverse]
      rw [List.reverse_append]
    conv_lhs => rw [← List.takeWhile_append_dropWhile isPyWs s, hdw]
    rw [List.append_assoc]
  · exact fun c hc => List.mem_takeWhile_imp hc
  · intro c hc
    rw [List.mem_reverse] at hc
    exact List.mem_takeWhile_imp hc

/-- Claim C4: with cleanup at its default (`delete_desc_file = True`), the
trace of `deploy` ends with the rolling-update invocation immediately followed
by the unlink of the temp file — so the unlink happens both when the
invocation succeeds and when it fails — and a failing invocation propagates
as the result after that cleanup. -/
theorem claim_C4_deploy_cleanup (w : World)
    (current new slack_token jenkins_api_token : List Char) :
    (∃ pre, (deploy w current new slack_token jenkins_api_token true).1
        = pre ++ [Event.runCmd (Cmd.kubectlRollingUpdate current),
            Event.unlinkTempFile]) ∧
    (w.rollingUpdateOk = true →
      (deploy w current new slack_token jenkins_api_token true).2 = .ok ()) ∧
    (w.rollingUpdateOk = false →
      (deploy w current new slack_token jenkins_api_token true).2
        = .error (.calledProcessError (.kubectlRollingUpdate current))) := by
  refine ⟨⟨[Event.readTemplate,
    Event.createTempFile (substitute w.template new slack_token jenkins_api_token)],
    by simp [deploy]⟩, ?_, ?_⟩
  · intro h
    simp [deploy, h]
  · intro h
    simp [deploy, h]

/-- Witness for C4: on a failing rolling update the unlink still follows the
invocation and the failure is the result. -/
theorem claim_C4_witness :
    (∃ pre, (deploy deployFailWorld (("frontend-v3").data) (("frontend-v4").data)
        (("s").data) (("j").data) true).1
        = pre ++ [Event.runCmd (Cmd.kubectlRollingUpdate (("frontend-v3").data)),
            Event.unlinkTempFile]) ∧
    (deploy deployFailWorld (("frontend-v3").data) (("frontend-v4").data)
        (("s").data) (("j").data) true).2
      = .error (.calledProcessError (.kubectlRollingUpdate (("frontend-v3").data))) :=
  ⟨(claim_C4_deploy_cleanup deployFailWorld (("frontend-v3").data)
      (("frontend-v4").data) (("s").data) (("j").data)).1,
    (claim_C4_deploy_cleanup deployFailWorld (("frontend-v3").data)
      (("frontend-v4").data) (("s").data) (("j").data)).2.2 rfl⟩

/-- Claim C5: when the secret file is missing, `get_secret` prints to stderr a
message naming the file and the secret and terminates the run with exit status
1; when the file exists it returns the contents stripped of surrounding
whitespace (the stripped value sits between two all-whitespace stretches of
the original contents). -/
theorem claim_C5_get_secret (fileExists : Bool)
    (contents filename passphrase_id : List Char) :
    (fileExists = false →
      get_secret fileExists contents filename passphrase_id
          = ([.printStderr (secretMsg filename passphrase_id)],
              .error (.exitCode 1)) ∧
        filename <:+: secretMsg filename passphrase_id ∧
        passphrase_id <:+: secretMsg filename passphrase_id) ∧
    (fileExists = true →
      get_secret fileExists contents filename passphrase_id
          = ([], .ok (pyStrip contents)) ∧
        ∃ a b, contents = a ++ pyStrip contents ++ b ∧
          (∀ c ∈ a, isPyWs c = true) ∧ (∀ c ∈ b, isPyWs c = true)) := by
  constructor
  · intro h
    subst h
    refine ⟨rfl, ?_, ?_⟩
    · exact ⟨("Please create a “").data,
        ("” file with secret ").data ++ passphrase_id ++ (" in it.").data,
        by simp [secretMsg, List.append_assoc]⟩
    · exact ⟨("Please create a “").data ++ filename ++ ("” file with secret ").data,
        (" in it.").data, by simp [secretMsg, List.append_assoc]⟩
  · intro h
    subst h
    exact ⟨rfl, pyStrip_decomp contents⟩

/-- Witness for C5: missing `.slack_token` file, and an existing file whose
contents carry surrounding whitespace. -/
theorem claim_C5_witness :
    (get_secret false [] SLACK_TOKEN_FILE (("K88").data)
        = ([.printStderr (secretMsg SLACK_TOKEN_FILE (("K88").data))],
            .error (.exitCode 1)) ∧
      SLACK_TOKEN_FILE <:+: secretMsg SLACK_TOKEN_FILE (("K88").data) ∧
      (("K88").data) <:+: secretMsg SLACK_TOKEN_FILE (("K88").data)) ∧
    (get_secret true ((" tok\n").data) JENKINS_API_TOKEN_FILE (("K92").data)
        = ([], .ok (pyStrip ((" tok\n").data)))) :=
  ⟨(claim_C5_get_secret false [] SLACK_TOKEN_FILE (("K88").data)).1 rfl,
    ((claim_C5_get_secret true ((" tok\n").data) JENKINS_API_TOKEN_FILE
      (("K92").data)).2 rfl).1⟩

/-- Claim C6: when a secret file is missing, no deploy-step action (template
read, temp-file creation, rolling-update invocation) appears in the run's
trace; and if every earlier pipeline step succeeds (builds, pod listing with a
match, version increment), the run terminates with exit status 1. -/
theorem claim_C6_missing_secret (w : World)
    (hmiss : w.slackTokenExists = false ∨ w.jenkinsTokenExists = false) :
    (∀ e ∈ (mainProg w).1, isDeployAction e = false) ∧
    (w.dockerBuildOk = true → w.gcloudPushOk = true → w.kubectlPodsOk = true →
      (∃ pid, reSearch w.podsOutput = some pid ∧
        increment_version (get_version pid) ≠ none) →
      (mainProg w).2 = .error (.exitCode 1)) := by
  cases hdb : w.dockerBuildOk with
  | false =>
    refine ⟨?_, ?_⟩
    · simp [mainProg, rebuild_image, hdb, isDeployAction]
    · intro h _ _ _
      simp at h
  | true =>
    cases hgp : w.gcloudPushOk with
    | false =>
      refine ⟨?_, ?_⟩
      · simp [mainProg, rebuild_image, hdb, hgp, isDeployAction]
      · intro _ h _ _
        simp at h
    | true =>
      cases hkp : w.kubectlPodsOk with
      | false =>
        refine ⟨?_, ?_⟩
        · simp [mainProg, rebuild_image, get_pod_id, hdb, hgp, hkp, isDeployAction]
        · intro _ _ h _
          simp at h
      | true =>
        rcases hrs : reSearch w.podsOutput with _ | pid
        · refine ⟨?_, ?_⟩
          · simp [mainProg, rebuild_image, get_pod_id, hdb, hgp, hkp, hrs,
              isDeployAction]
          · rintro _ _ _ ⟨pid, hpid, -⟩
            exact Option.noConfusion hpid
        · rcases hiv : increment_version (get_version pid) with _ | nv
          · refine ⟨?_, ?_⟩
            · simp [mainProg, rebuild_image, get_pod_id, hdb, hgp, hkp, hrs, hiv,
                isDeployAction]
            · rintro _ _ _ ⟨pid2, hpid2, hinc2⟩
              injection hpid2 with hpid2
              subst hpid2
              exact absurd hiv hinc2
          · cases hse : w.slackTokenExists with
            | false =>
              refine ⟨?_, ?_⟩
              · simp [mainProg, rebuild_image, get_pod_id, get_secret, hdb, hgp,
                  hkp, hrs, hiv, hse, isDeployAction]
              · intro _ _ _ _
                simp [mainProg, rebuild_image, get_pod_id, get_secret, hdb, hgp,
                  hkp, hrs, hiv, hse]
            | true =>
              cases hje : w.jenkinsTokenExists with
              | false =>
                refine ⟨?_, ?_⟩
                · simp [mainProg, rebuild_image, get_pod_id, get_secret, hdb, hgp,
                    hkp, hrs, hiv, hse, hje, isDeployAction]
                · intro _ _ _ _
                  simp [mainProg, rebuild_image, get_pod_id, get_secret, hdb, hgp,
                    hkp, hrs, hiv, hse, hje]
              | true =>
                rcases hmiss with h | h
                · rw [hse] at h
                  exact absurd h (by simp)
                · rw [hje] at h
                  exact absurd h (by simp)

/-- Witness for C6 on `missingSecretWorld`. -/
theorem claim_C6_witness :
    (∀ e ∈ (mainProg missingSecretWorld).1, isDeployAction e = false) ∧
      (mainProg missingSecretWorld).2 = .error (.exitCode 1) :=
  ⟨(claim_C6_missing_secret missingSecretWorld (Or.inl rfl)).1,
    (claim_C6_missing_secret missingSecretWorld (Or.inl rfl)).2 rfl rfl rfl
      ⟨("frontend-v3-abcde").data, rfl, by decide⟩⟩

/-- Claim C8: given the captured output of the workload-listing command,
`get_pod_id` fails with the unhandled lookup failure exactly when no substring
of the output matches `frontend-v\d+-[^\s]+`; and when it returns a value,
that value is a pattern match occurring in the output, no match starts at any
earlier position (it is the first match), and it extends greedily (the
remainder begins with whitespace or is empty). -/
theorem claim_C8_get_pod_id (w : World) (hok : w.kubectlPodsOk = true) :
    ((get_pod_id w).2 = .error .attrError ↔
      ¬ ∃ m, m <:+: w.podsOutput ∧ IsPodId m) ∧
    (∀ m, (get_pod_id w).2 = .ok m → IsPodId m ∧
      ∃ a b, w.podsOutput = a ++ m ++ b ∧
        (b = [] ∨ ∃ c t, b = c :: t ∧ isPyWs c = true) ∧
        ∀ i, i < a.length → ¬ StartsWithPod (w.podsOutput.drop i)) := by
  have hsnd : (get_pod_id w).2
      = match reSearch w.podsOutput with
        | some m => .ok m
        | none => .error .attrError := by
    simp [get_pod_id, hok]
  constructor
  · rcases hr : reSearch w.podsOutput with _ | m
    · rw [hsnd, hr]
      simp only [true_iff]
      exact (reSearch_none_iff w.podsOutput).mp hr
    · rw [hsnd, hr]
      constructor
      · intro h
        exact absurd h (by simp)
      · intro hno
        obtain ⟨hpod, a, b, hab, -, -⟩ := reSearch_some hr
        exact absurd ⟨m, ⟨a, b, hab.symm⟩, hpod⟩ hno
  · intro m hm
    rw [hsnd] at hm
    rcases hr : reSearch w.podsOutput with _ | m2 <;> rw [hr] at hm
    · exact absurd hm (by simp)
    · injection hm with hm
      subst hm
      exact reSearch_some hr

/-- Witness for C8: on `podListingWorld` the returned pod id is
`frontend-v3-abcde`, a first greedy match of the pattern. -/
theorem claim_C8_witness :
    IsPodId (("frontend-v3-abcde").data) ∧
      ∃ a b, podListingWorld.podsOutput = a ++ ("frontend-v3-abcde").data ++ b ∧
        (b = [] ∨ ∃ c t, b = c :: t ∧ isPyWs c = true) ∧
        ∀ i, i < a.length → ¬ StartsWithPod (podListingWorld.podsOutput.drop i) :=
  (claim_C8_get_pod_id podListingWorld rfl).2 (("frontend-v3-abcde").data) rfl
